import Mathlib

/- Formal model of the pinecone-vector-chat service: document chunking and
ingestion (src/ingest.py), the HTTP surface with its rate limiter, RAG chain,
upload and path-ingestion endpoints (src/jarvis_assistant.py), and the index
provisioner (src/jarvis_assistant.py, src/setup_pinecone.py).  External
collaborators (vector database, embedding model, chat model, filesystem) are
shallowly embedded as explicit parameters or effect lists. -/

/-! Chunker -/

/-- Modelled from the spec: the chunker (`RecursiveCharacterTextSplitter`, a
library external to src/) splits raw text into overlapping fixed-size windows
over characters: each window holds at most `chunkSize` characters and
consecutive windows share `overlap` characters.  The `fuel` argument only
bounds the recursion; `chunkText` supplies enough fuel for the whole input. -/
def chunkTextAux (chunkSize overlap : Nat) : Nat → List Char → List (List Char)
  | 0, s => [s]
  | fuel + 1, s =>
    if s.length ≤ chunkSize ∨ chunkSize ≤ overlap then [s]
    else s.take chunkSize :: chunkTextAux chunkSize overlap fuel (s.drop (chunkSize - overlap))

/-- Modelled from the spec: `split_text` of the chunker on a character list. -/
def chunkText (chunkSize overlap : Nat) (s : List Char) : List (List Char) :=
  chunkTextAux chunkSize overlap s.length s

/-- Modelled from the spec: `split_text` of the chunker on a string. -/
def chunkStr (chunkSize overlap : Nat) (s : String) : List String :=
  (chunkText chunkSize overlap s.toList).map (fun cs => String.mk cs)

/-- Concatenation of an ordered chunk list with the overlapping portions
removed: the first chunk is kept whole and every later chunk drops its first
`overlap` characters. -/
def reassemble (overlap : Nat) : List (List Char) → List Char
  | [] => []
  | c :: cs => c ++ (cs.map (List.drop overlap)).flatten

/-! Rate limiter (src/jarvis_assistant.py, rate_limit_check) -/

/-- The pruning step of `rate_limit_check`: keep only the timestamps of the
trailing 60-second window (`now - t < 60`). -/
def pruneWindow (now : Int) (ts : List Int) : List Int :=
  ts.filter (fun t => decide (now - t < 60))

/-- One call of `rate_limit_check` for a single client key, with the stored
timestamp list passed explicitly: prune, then reject if 10 or more remain,
otherwise accept and record `now`.  Returns (accepted, new stored list). -/
def rateLimitCheck (now : Int) (ts : List Int) : Bool × List Int :=
  let live := pruneWindow now ts
  if 10 ≤ live.length then (false, live) else (true, live ++ [now])

/-- A sequence of `rate_limit_check` calls at the given times, threading the
stored timestamp list; returns the list of accept/reject outcomes and the
final stored list. -/
def runChecks : List Int → List Int → List Bool × List Int
  | [], st => ([], st)
  | t :: rest, st =>
    let r := rateLimitCheck t st
    let rr := runChecks rest r.2
    (r.1 :: rr.1, rr.2)

/-! Ingestion pipeline (src/ingest.py, ingest_documents) -/

/-- Python `str.endswith`, computed over character lists. -/
def strEndsWith (s pat : String) : Bool :=
  pat.toList.isSuffixOf s.toList

/-- A filesystem path, as its list of components; `os.path.basename` is the
last component.  Paths are taken as already absolute (`os.path.abspath` is the
identity in this model). -/
def basename (p : List String) : String := p.getLastD ""

/-- A chunk as stored in the vector index: `Document(page_content,
metadata={source, type})`. -/
structure Doc where
  page_content : String
  source : String
  type : String
deriving DecidableEq

/-- The external collaborators of `ingest_documents`: filesystem queries,
text extraction (`None` models a raised/reported extraction error), and
whether the final embedding/upsert call succeeds. -/
structure Fs where
  pathExists : List String → Bool
  docsFolderExists : Bool
  docsFolderList : List String
  readPdf : List String → Option String
  readTxt : List String → Option String
  upsertOk : Bool

/-- Side effects of `ingest_documents` on the remote vector index. -/
inductive Effect where
  | clearIndex
  | upsert (numChunks : Nat)
deriving DecidableEq

/-- The per-file body of the loop in `ingest_documents`: extract text, split,
and tag every chunk with `{source: basename, type: pdf|txt}`.  An empty or
failed PDF extraction and a failed text load each contribute no chunks. -/
def processFile (fs : Fs) (chunkSize chunkOverlap : Nat) (path : List String) : List Doc :=
  let fileName := basename path
  if strEndsWith fileName ".pdf" then
    match fs.readPdf path with
    | some text =>
      if text ≠ "" then
        (chunkStr chunkSize chunkOverlap text).map (fun c => Doc.mk c fileName "pdf")
      else []
    | none => []
  else if strEndsWith fileName ".txt" then
    match fs.readTxt path with
    | some text => (chunkStr chunkSize chunkOverlap text).map (fun c => Doc.mk c fileName "txt")
    | none => []
  else []

/-- File-set resolution of `ingest_documents`: explicit paths are filtered by
existence; otherwise the docs folder is scanned for `.pdf`/`.txt` entries
(`none` models the missing-folder early return after `os.makedirs`). -/
def resolveFiles (fs : Fs) (filePath : Option (List (List String))) : Option (List (List String)) :=
  match filePath with
  | some paths => some (paths.filter fs.pathExists)
  | none =>
    if fs.docsFolderExists = false then none
    else
      some ((fs.docsFolderList.filter
        (fun f => strEndsWith f ".pdf" || strEndsWith f ".txt")).map (fun f => ["docs", f]))

/-- `ingest_documents`: environment check, optional index clearing, file-set
resolution, chunk accumulation, and the single batched embed/upsert.  Returns
the boolean result together with the list of vector-index side effects in
program order. -/
def ingestDocuments (fs : Fs) (envOk : Bool) (filePath : Option (List (List String)))
    (chunkSize chunkOverlap : Nat) (clearExisting : Bool) : Bool × List Effect :=
  if envOk = false then (false, [])
  else
    let eff0 : List Effect := if clearExisting then [Effect.clearIndex] else []
    match resolveFiles fs filePath with
    | none => (false, eff0)
    | some files =>
      if files = [] then (false, eff0)
      else
        let documents := (files.map (processFile fs chunkSize chunkOverlap)).flatten
        if documents = [] then (false, eff0)
        else (fs.upsertOk, eff0 ++ [Effect.upsert documents.length])

/-- A filesystem on which every explicit path is missing. -/
def fsEmptyCase : Fs where
  pathExists := fun _ => false
  docsFolderExists := true
  docsFolderList := []
  readPdf := fun _ => none
  readTxt := fun _ => none
  upsertOk := true

/-- A filesystem holding one readable text file. -/
def fsOneTxt : Fs where
  pathExists := fun _ => true
  docsFolderExists := true
  docsFolderList := []
  readPdf := fun _ => none
  readTxt := fun _ => some "hello world"
  upsertOk := true

/-! Retrieval chain and chat endpoint (src/jarvis_assistant.py) -/

/-- A chunk as returned by the retriever; `source` is `metadata.get('source')`
(absent models a vector stored without the key). -/
structure RetrievedDoc where
  page_content : String
  source : Option String
deriving DecidableEq

/-- `as_retriever(search_kwargs={"k": 3})`: the configured top-k. -/
def searchKwargsK : Nat := 3

/-- `ChatOpenAI(model="gpt-4o-mini", temperature=0)`: the configured sampling
temperature. -/
def chatTemperature : Nat := 0

/-- `ChatOpenAI(model="gpt-4o-mini", temperature=0)`: the configured model. -/
def chatModelName : String := "gpt-4o-mini"

/-- `format_docs`: join the retrieved chunk texts with a double newline. -/
def formatDocs (docs : List RetrievedDoc) : String :=
  String.intercalate "\n\n" (docs.map RetrievedDoc.page_content)

/-- The fixed prompt template of `get_rag_chain` with context and question
substituted. -/
def ragTemplate (context question : String) : String :=
  "Answer the question based only on the following context:\n        "
    ++ context
    ++ "\n        \n        Question: "
    ++ question
    ++ "\n        \n        If the answer is not in the context, say \"I don\x27t have enough information to answer that based on my current knowledge base.\"\n        "

/-- The assembled chain `{context: retriever | format_docs, question:
passthrough} | prompt | model | StrOutputParser`: the chat model `llm` applied
to the filled template. -/
def ragChainInvoke (retriever : String → List RetrievedDoc) (llm : String → String)
    (question : String) : String :=
  llm (ragTemplate (formatDocs (retriever question)) question)

/-- The success payload of the `chat` endpoint (latency and similarity metrics
omitted: wall-clock and external-model quantities). -/
structure ChatSuccess where
  message : String
  sources : List String
deriving DecidableEq

/-- The successful path of the `chat` endpoint after rate limiting and
validation: invoke the retriever, invoke the chain, and report the
deduplicated source filenames of the retrieved chunks. -/
def chatSuccessBody (retriever : String → List RetrievedDoc) (llm : String → String)
    (msg : String) : ChatSuccess where
  message := ragChainInvoke retriever llm msg
  sources := ((retriever msg).map (fun d => d.source.getD "unknown")).dedup

/-! Index provisioner (src/jarvis_assistant.py, get_rag_chain) -/

/-- A remote index as listed/described by the vector-database client. -/
structure IndexInfo where
  name : String
  dimension : Nat
deriving DecidableEq

/-- Calls issued to the vector-database control plane, in program order. -/
inductive PEffect where
  | listIndexes
  | describeIndex (name : String)
  | deleteIndex (name : String)
  | createIndex (name : String) (dimension : Nat) (metric : String)
  | sleepSecs (n : Nat)
deriving DecidableEq

/-- The guarded `pc.create_index` call of `get_rag_chain`: the 30-second pause
happens only when creation succeeds (`createOk`). -/
def createAttempt (indexName : String) (createOk : Bool) : List PEffect :=
  PEffect.createIndex indexName 1536 "cosine"
    :: (if createOk then [PEffect.sleepSecs 30] else [])

/-- The provisioning prefix of `get_rag_chain`: list indexes; if the target
exists, describe it and delete/recreate on a dimension mismatch; if it does
not exist (or was just deleted), create it with dimension 1536 and cosine
metric.  Returns the control-plane effects and whether the chain construction
proceeds. -/
def provisionIndex (indexes : List IndexInfo) (indexName : String) (createOk : Bool) :
    List PEffect × Bool :=
  let activeIndexes := indexes.map IndexInfo.name
  if indexName ∈ activeIndexes then
    let foundDim := ((indexes.find? (fun i => i.name == indexName)).map IndexInfo.dimension).getD 0
    if foundDim ≠ 1536 then
      ([PEffect.listIndexes, PEffect.describeIndex indexName, PEffect.deleteIndex indexName,
          PEffect.sleepSecs 5] ++ createAttempt indexName createOk, createOk)
    else ([PEffect.listIndexes, PEffect.describeIndex indexName], true)
  else (PEffect.listIndexes :: createAttempt indexName createOk, createOk)

/-! Upload endpoint (src/jarvis_assistant.py, allowed_file / upload_file) -/

/-- `ALLOWED_EXTENSIONS = {'txt', 'pdf'}`. -/
def allowedExtensions : List String := ["txt", "pdf"]

/-- ASCII lowering of a string, per character (Python `str.lower` on the
extensions in play). -/
def lowerStr (s : String) : String := String.mk (s.toList.map Char.toLower)

/-- `filename.rsplit('.', 1)[1]`: the text after the last dot. -/
def extAfterDot (filename : String) : String :=
  String.mk ((filename.toList.reverse.takeWhile (fun c => c != '.')).reverse)

/-- `allowed_file`: the filename holds a dot and its lowered last extension is
in the allowed set. -/
def allowed_file (filename : String) : Bool :=
  filename.toList.contains '.' && allowedExtensions.contains (lowerStr (extAfterDot filename))

/-- Outcome of the `upload_file` endpoint: HTTP status, the files written to
the upload folder, and whether a background ingestion thread was started. -/
structure UploadOutcome where
  status : Nat
  savedFiles : List String
  ingestStarted : Bool
deriving DecidableEq

/-- `upload_file`: `none` models a request without a `file` part; otherwise
the list of submitted filenames.  Files passing `allowed_file` are saved under
their `secure_filename`; with none saved the request fails 400 and no thread
starts. -/
def uploadFile (secureName : String → String) (filePart : Option (List String)) : UploadOutcome :=
  match filePart with
  | none => UploadOutcome.mk 400 [] false
  | some files =>
    if files = [] ∨ files.headD "" = "" then UploadOutcome.mk 400 [] false
    else
      let saved := (files.filter (fun f => !(f == "") && allowed_file f)).map secureName
      if saved = [] then UploadOutcome.mk 400 saved false
      else UploadOutcome.mk 200 saved true

/-! Path-ingestion endpoint (src/jarvis_assistant.py, ingest_by_path) -/

/-- Python `str.split(sep)` on one character, over character lists
(`"".split(sep)` gives `[""]`). -/
def splitOnChar (sep : Char) : List Char → List (List Char)
  | [] => [[]]
  | c :: rest =>
    let r := splitOnChar sep rest
    if c == sep then [] :: r
    else
      match r with
      | [] => [[c]]
      | h :: t => (c :: h) :: t

/-- Python `str.strip()`: drop whitespace from both ends. -/
def stripChars (s : List Char) : List Char :=
  ((s.dropWhile Char.isWhitespace).reverse.dropWhile Char.isWhitespace).reverse

/-- Python `str.strip()` on a string. -/
def stripStr (s : String) : String := String.mk (stripChars s.toList)

/-- The `file_path` field of an ingest-path request body: a JSON string or a
JSON array of strings (non-string array entries, dropped by the handler, are
omitted from the model). -/
inductive StrOrList where
  | str (s : String)
  | lst (l : List String)

/-- Truthiness of the `file_path` field (`if not file_paths`). -/
def reqTruthy : Option StrOrList → Bool
  | none => false
  | some (StrOrList.str s) => !(s == "")
  | some (StrOrList.lst l) => !(l.isEmpty)

/-- Normalization of `file_path` into a path list: split a string on commas,
strip each entry, and keep the non-empty ones. -/
def normalizePaths : StrOrList → List String
  | StrOrList.str s =>
    ((splitOnChar ',' s.toList).map (fun p => String.mk (stripChars p))).filter (fun p => !(p == ""))
  | StrOrList.lst l => (l.map stripStr).filter (fun p => !(p == ""))

/-- Response of the `ingest-path` endpoint; only `started` spawns the
background ingestion thread. -/
inductive IngestPathResp where
  | badRequest (msg : String)
  | notFound (invalidPaths : List String)
  | started (paths : List String) (chunkSize chunkOverlap : Nat) (clearExisting : Bool)
deriving DecidableEq

/-- `ingest_by_path`: reject an absent/falsy `file_path` (400), reject an
empty normalized list (400), return 404 listing the non-existent paths if any,
otherwise start ingestion.  `osPathExists` is `os.path.exists`. -/
def ingest_by_path (osPathExists : String → Bool) (filePath : Option StrOrList)
    (chunkSize chunkOverlap : Nat) (clearExisting : Bool) : IngestPathResp :=
  if reqTruthy filePath = false then IngestPathResp.badRequest "No file paths provided"
  else
    match filePath with
    | none => IngestPathResp.badRequest "No file paths provided"
    | some fp =>
      let paths := normalizePaths fp
      if paths = [] then IngestPathResp.badRequest "No valid file paths found"
      else
        let invalid := paths.filter (fun p => !(osPathExists p))
        if invalid = [] then IngestPathResp.started paths chunkSize chunkOverlap clearExisting
        else IngestPathResp.notFound invalid

/-! Chat endpoint control flow (src/jarvis_assistant.py, chat) -/

/-- Pydantic `ChatRequest`: `message` between 1 and 1000 characters. -/
def validMessage (m : String) : Bool := 1 ≤ m.length && m.length ≤ 1000

/-- How a `POST /api/chat` request is dispatched: 429, 400 on validation, or
the remaining handler body. -/
inductive ChatOutcome where
  | rateLimited
  | validationFailed
  | proceeded
deriving DecidableEq

/-- The `chat` route head for one client key: `rate_limit_check` first, then
message validation, threading the stored timestamp list. -/
def chatRoute (now : Int) (st : List Int) (msg : String) : ChatOutcome × List Int :=
  let r := rateLimitCheck now st
  if r.1 = false then (ChatOutcome.rateLimited, r.2)
  else if validMessage msg = false then (ChatOutcome.validationFailed, r.2)
  else (ChatOutcome.proceeded, r.2)

/-! Theorems: chunker -/

theorem chunkTextAux_chunk_le (chunkSize overlap : Nat) (hO : overlap < chunkSize) :
    ∀ (fuel : Nat) (s : List Char), s.length ≤ fuel →
      ∀ c ∈ chunkTextAux chunkSize overlap fuel s, c.length ≤ chunkSize := by
  intro fuel
  induction fuel with
  | zero =>
    intro s hs c hc
    have hnil : s = [] := List.eq_nil_of_length_eq_zero (Nat.le_zero.mp hs)
    subst hnil
    simp only [chunkTextAux, List.mem_singleton] at hc
    subst hc
    simp
  | succ n ih =>
    intro s hs c hc
    by_cases hbase : s.length ≤ chunkSize ∨ chunkSize ≤ overlap
    · simp only [chunkTextAux, if_pos hbase, List.mem_singleton] at hc
      subst hc
      rcases hbase with h | h
      · exact h
      · omega
    · simp only [chunkTextAux, if_neg hbase, List.mem_cons] at hc
      push_neg at hbase
      rcases hc with hc | hc
      · subst hc
        simp [List.length_take]
      · exact ih _ (by simp [List.length_drop]; omega) c hc

theorem chunkTextAux_flatten_drop (chunkSize overlap : Nat) (hO : overlap < chunkSize) :
    ∀ (fuel : Nat) (s : List Char), s.length ≤ fuel →
      ((chunkTextAux chunkSize overlap fuel s).map (List.drop overlap)).flatten
        = s.drop overlap := by
  intro fuel
  induction fuel with
  | zero =>
    intro s hs
    have hnil : s = [] := List.eq_nil_of_length_eq_zero (Nat.le_zero.mp hs)
    subst hnil
    simp [chunkTextAux]
  | succ n ih =>
    intro s hs
    by_cases hbase : s.length ≤ chunkSize ∨ chunkSize ≤ overlap
    · simp [chunkTextAux, if_pos hbase]
    · simp only [chunkTextAux, if_neg hbase, List.map_cons, List.flatten_cons]
      have hb2 := hbase
      push_neg at hb2
      obtain ⟨h1, h2⟩ := hb2
      rw [ih _ (by simp [List.length_drop]; omega)]
      rw [List.drop_drop]
      have hCO : chunkSize - overlap + overlap = chunkSize := by omega
      rw [hCO]
      conv_rhs => rw [← List.take_append_drop chunkSize s]
      rw [List.drop_append_eq_append_drop]
      have hlen : (List.take chunkSize s).length = chunkSize := by
        simp [List.length_take]; omega
      rw [hlen]
      have hz : overlap - chunkSize = 0 := by omega
      rw [hz, List.drop_zero]

theorem reassemble_chunkTextAux (chunkSize overlap : Nat) (hO : overlap < chunkSize)
    (fuel : Nat) (s : List Char) (hs : s.length ≤ fuel) :
    reassemble overlap (chunkTextAux chunkSize overlap fuel s) = s := by
  cases fuel with
  | zero =>
    have hnil : s = [] := List.eq_nil_of_length_eq_zero (Nat.le_zero.mp hs)
    subst hnil
    simp [chunkTextAux, reassemble]
  | succ n =>
    by_cases hbase : s.length ≤ chunkSize ∨ chunkSize ≤ overlap
    · simp [chunkTextAux, if_pos hbase, reassemble]
    · simp only [chunkTextAux, if_neg hbase, reassemble]
      have hb2 := hbase
      push_neg at hb2
      obtain ⟨h1, h2⟩ := hb2
      rw [chunkTextAux_flatten_drop chunkSize overlap hO n _
        (by simp [List.length_drop]; omega)]
      rw [List.drop_drop]
      have hCO : chunkSize - overlap + overlap = chunkSize := by omega
      rw [hCO, List.take_append_drop]

/-- C1: for every input text, chunk size C and overlap O < C, the chunker
produces an ordered sequence of chunks each of size at most C, and
concatenating the chunks with the overlapping portions removed reconstructs
the source text exactly. -/
theorem chunker_size_and_reconstruction (chunkSize overlap : Nat) (s : List Char)
    (hO : overlap < chunkSize) :
    (∀ c ∈ chunkText chunkSize overlap s, c.length ≤ chunkSize) ∧
      reassemble overlap (chunkText chunkSize overlap s) = s := by
  constructor
  · exact chunkTextAux_chunk_le chunkSize overlap hO s.length s le_rfl
  · exact reassemble_chunkTextAux chunkSize overlap hO s.length s le_rfl

/-- Witness: the C1 theorem at chunk size 5, overlap 2, on "abcdefgh", whose
chunks evaluate to ["abcde", "defgh"]. -/
theorem chunker_size_and_reconstruction_witness :
    (2 < 5) ∧
      (chunkText 5 2 "abcdefgh".toList = ["abcde".toList, "defgh".toList]) ∧
      ((∀ c ∈ chunkText 5 2 "abcdefgh".toList, c.length ≤ 5) ∧
        reassemble 2 (chunkText 5 2 "abcdefgh".toList) = "abcdefgh".toList) :=
  ⟨by decide, by decide, chunker_size_and_reconstruction 5 2 "abcdefgh".toList (by decide)⟩

/-! Theorems: rate limiter -/

theorem pruneWindow_eq_self (now : Int) (ts : List Int) (h : ∀ t ∈ ts, now - t < 60) :
    pruneWindow now ts = ts :=
  List.filter_eq_self.mpr (fun t ht => decide_eq_true (h t ht))

theorem rateLimitCheck_accept (now : Int) (ts : List Int)
    (h : (pruneWindow now ts).length < 10) :
    rateLimitCheck now ts = (true, pruneWindow now ts ++ [now]) := by
  simp only [rateLimitCheck]
  rw [if_neg (by omega)]

theorem rateLimitCheck_reject (now : Int) (ts : List Int)
    (h : 10 ≤ (pruneWindow now ts).length) :
    rateLimitCheck now ts = (false, pruneWindow now ts) := by
  simp only [rateLimitCheck]
  rw [if_pos h]

theorem runChecks_append (a b : List Int) (st : List Int) :
    runChecks (a ++ b) st =
      ((runChecks a st).1 ++ (runChecks b (runChecks a st).2).1,
        (runChecks b (runChecks a st).2).2) := by
  induction a generalizing st with
  | nil => simp [runChecks]
  | cons t rest ih => simp [runChecks, ih]

theorem runChecks_all_accept (l : List Int) :
    ∀ (st : List Int),
      (∀ x ∈ st, ∀ t ∈ l, x ≤ t ∧ t - x < 60) →
      l.Pairwise (fun a b => a ≤ b ∧ b - a < 60) →
      st.length + l.length ≤ 10 →
      runChecks l st = (List.replicate l.length true, st ++ l) := by
  induction l with
  | nil => intro st _ _ _; simp [runChecks]
  | cons t rest ih =>
    intro st hst hpair hlen
    have hprune : pruneWindow t st = st :=
      pruneWindow_eq_self t st (fun x hx => (hst x hx t (by simp)).2)
    have hstep : rateLimitCheck t st = (true, st ++ [t]) := by
      rw [rateLimitCheck_accept t st (by rw [hprune]; simp at hlen; omega), hprune]
    obtain ⟨hhead, htail⟩ := List.pairwise_cons.mp hpair
    have hrest : runChecks rest (st ++ [t]) =
        (List.replicate rest.length true, (st ++ [t]) ++ rest) := by
      apply ih (st ++ [t]) ?h1 htail ?h2
      · intro x hx u hu
        rcases List.mem_append.mp hx with hx | hx
        · exact hst x hx u (List.mem_cons_of_mem t hu)
        · have : x = t := by simpa using hx
          subst this
          exact hhead u hu
      · simp at hlen ⊢; omega
    simp [runChecks, hstep, hrest, List.replicate_succ]

/-- C2: for a client key starting from an empty window, 10 requests arriving
(in time order) within the same 60-second window all succeed, an 11th request
within that window is rejected, and once 60 seconds have elapsed since every
recorded timestamp a new request succeeds again. -/
theorem rate_limiter_window_cycle (l : List Int) (t11 tnew : Int)
    (hlen : l.length = 10)
    (hpair : l.Pairwise (fun a b => a ≤ b ∧ b - a < 60))
    (h11 : ∀ x ∈ l, x ≤ t11 ∧ t11 - x < 60)
    (hnew : ∀ x ∈ l, 60 ≤ tnew - x) :
    runChecks (l ++ [t11, tnew]) [] = (List.replicate 10 true ++ [false, true], [tnew]) := by
  have h1 : runChecks l [] = (List.replicate 10 true, l) := by
    have h := runChecks_all_accept l [] (by simp) hpair (by simp [hlen])
    simpa [hlen] using h
  have hpr11 : pruneWindow t11 l = l :=
    pruneWindow_eq_self t11 l (fun x hx => (h11 x hx).2)
  have hrej : rateLimitCheck t11 l = (false, l) := by
    rw [rateLimitCheck_reject t11 l (by rw [hpr11]; omega), hpr11]
  have hprnew : pruneWindow tnew l = [] := by
    apply List.filter_eq_nil_iff.mpr
    intro x hx
    have := hnew x hx
    simp
    omega
  have hacc : rateLimitCheck tnew l = (true, [tnew]) := by
    rw [rateLimitCheck_accept tnew l (by rw [hprnew]; simp), hprnew]
    simp
  rw [runChecks_append, h1]
  simp [runChecks, hrej, hacc]

/-- Witness: the C2 theorem with ten accepted requests at time 0, a rejected
eleventh at time 0, and an accepted request at time 60. -/
theorem rate_limiter_window_cycle_witness :
    runChecks (List.replicate 10 (0 : Int) ++ [0, 60]) []
      = (List.replicate 10 true ++ [false, true], [60]) :=
  rate_limiter_window_cycle (List.replicate 10 0) 0 60
    (by decide) (by decide) (by decide) (by decide)

theorem rateLimitCheck_len (now : Int) (st : List Int) (h : st.length ≤ 10) :
    ((rateLimitCheck now st).2).length ≤ 10 := by
  have hf : (pruneWindow now st).length ≤ st.length := List.length_filter_le _ _
  by_cases h10 : 10 ≤ (pruneWindow now st).length
  · rw [rateLimitCheck_reject now st h10]
    simpa using le_trans hf h
  · rw [rateLimitCheck_accept now st (by omega)]
    simp
    omega

theorem runChecks_len (times : List Int) :
    ∀ st : List Int, st.length ≤ 10 → ((runChecks times st).2).length ≤ 10 := by
  induction times with
  | nil => intro st h; simpa [runChecks] using h
  | cons t rest ih =>
    intro st h
    simp only [runChecks]
    exact ih _ (rateLimitCheck_len t st h)

/-- C9: for every client key and every sequence of checks starting from the
empty store, the stored timestamp list holds at most 10 entries after any
check; and a rejected check records no timestamp — the store it leaves is
exactly the pruned trailing-window sublist of the previous store. -/
theorem rate_limit_store_invariant :
    (∀ times : List Int, ((runChecks times []).2).length ≤ 10) ∧
      (∀ (now : Int) (ts : List Int), (rateLimitCheck now ts).1 = false →
        (rateLimitCheck now ts).2 = pruneWindow now ts ∧
          ((rateLimitCheck now ts).2).Sublist ts) := by
  constructor
  · intro times
    exact runChecks_len times [] (by simp)
  · intro now ts hrej
    by_cases h10 : 10 ≤ (pruneWindow now ts).length
    · rw [rateLimitCheck_reject now ts h10]
      exact ⟨rfl, List.filter_sublist ts⟩
    · rw [rateLimitCheck_accept now ts (by omega)] at hrej
      simp at hrej

/-- Witness: the C9 theorem on twelve checks at time 0 (store stays at 10
entries) and on a rejected check against a full store of ten timestamps. -/
theorem rate_limit_store_invariant_witness :
    ((runChecks (List.replicate 12 (0 : Int)) []).2).length ≤ 10 ∧
      (rateLimitCheck 0 (List.replicate 10 (0 : Int))).1 = false ∧
      (rateLimitCheck 0 (List.replicate 10 (0 : Int))).2
        = pruneWindow 0 (List.replicate 10 (0 : Int)) :=
  ⟨rate_limit_store_invariant.1 (List.replicate 12 0), by decide,
    (rate_limit_store_invariant.2 0 (List.replicate 10 0) (by decide)).1⟩

/-! Theorems: chat endpoint control flow -/

/-- C10: on `POST /api/chat`, for a client that is not currently rate-limited,
the timestamp is recorded before the message is validated: a request whose
message fails validation is answered 400 yet still consumes one of the
client's slots (the new store is the pruned store plus `now`). -/
theorem chat_validation_consumes_slot (now : Int) (st : List Int) (msg : String)
    (hacc : (rateLimitCheck now st).1 = true) (hbad : validMessage msg = false) :
    chatRoute now st msg = (ChatOutcome.validationFailed, pruneWindow now st ++ [now]) := by
  have h2 : rateLimitCheck now st = (true, pruneWindow now st ++ [now]) := by
    by_cases h10 : 10 ≤ (pruneWindow now st).length
    · rw [rateLimitCheck_reject now st h10] at hacc
      simp at hacc
    · exact rateLimitCheck_accept now st (by omega)
  simp [chatRoute, h2, hbad]

/-- Witness: the C10 theorem for an empty message from a fresh client at time
0: the response is the validation failure and the slot is consumed. -/
theorem chat_validation_consumes_slot_witness :
    (rateLimitCheck 0 []).1 = true ∧ validMessage "" = false ∧
      chatRoute 0 [] "" = (ChatOutcome.validationFailed, pruneWindow 0 [] ++ [0]) :=
  ⟨by decide, by decide, chat_validation_consumes_slot 0 [] "" (by decide) (by decide)⟩

/-! Theorems: ingestion pipeline -/

/-- C3 counterexample: an invocation whose resolved file set is empty (the
single explicit path does not exist) but which was asked to clear the index
first: it returns failure and never upserts, yet it has already cleared the
index — a side effect on the vector index, because the clearing step runs
before the file set is resolved. -/
theorem ingest_clear_despite_empty_set :
    resolveFiles fsEmptyCase (some [["missing.txt"]]) = some [] ∧
      ingestDocuments fsEmptyCase true (some [["missing.txt"]]) 1000 200 true
        = (false, [Effect.clearIndex]) ∧
      ¬(ingestDocuments fsEmptyCase true (some [["missing.txt"]]) 1000 200 true).2 = [] := by
  decide

/-- C3 (amended): for every invocation of the ingestion pipeline whose
resolved file set is empty, the pipeline returns failure without calling the
embedding/upsert step; and when `clear_existing` was not requested it performs
no side effect on the vector index at all (with `clear_existing` the index may
already have been cleared before the file set was resolved). -/
theorem ingest_empty_set_no_upsert (fs : Fs) (envOk : Bool)
    (filePath : Option (List (List String))) (chunkSize chunkOverlap : Nat)
    (clearExisting : Bool)
    (h : resolveFiles fs filePath = none ∨ resolveFiles fs filePath = some []) :
    (ingestDocuments fs envOk filePath chunkSize chunkOverlap clearExisting).1 = false ∧
      (∀ n, Effect.upsert n ∉
        (ingestDocuments fs envOk filePath chunkSize chunkOverlap clearExisting).2) ∧
      (clearExisting = false →
        (ingestDocuments fs envOk filePath chunkSize chunkOverlap clearExisting).2 = []) := by
  cases envOk with
  | false => simp [ingestDocuments]
  | true =>
    cases clearExisting with
    | false => rcases h with h | h <;> simp [ingestDocuments, h]
    | true => rcases h with h | h <;> simp [ingestDocuments, h]

/-- Witness: the C3 amended theorem on a filesystem where the one explicit
path is missing and clearing was not requested. -/
theorem ingest_empty_set_no_upsert_witness :
    (resolveFiles fsEmptyCase (some [["missing.txt"]]) = some []) ∧
      ((ingestDocuments fsEmptyCase true (some [["missing.txt"]]) 1000 200 false).1 = false ∧
        (∀ n, Effect.upsert n ∉
          (ingestDocuments fsEmptyCase true (some [["missing.txt"]]) 1000 200 false).2) ∧
        (false = false →
          (ingestDocuments fsEmptyCase true (some [["missing.txt"]]) 1000 200 false).2 = [])) :=
  ⟨by decide, ingest_empty_set_no_upsert fsEmptyCase true (some [["missing.txt"]])
    1000 200 false (Or.inr (by decide))⟩

/-- C6: every chunk produced by ingestion carries metadata exactly
`{source, type}` where `source` is the bare filename (the last path component,
never the full path) of the file it came from and `type` is `pdf` for `.pdf`
files and `txt` for `.txt` files. -/
theorem ingest_chunk_metadata (fs : Fs) (chunkSize chunkOverlap : Nat)
    (files : List (List String)) (d : Doc)
    (hd : d ∈ (files.map (processFile fs chunkSize chunkOverlap)).flatten) :
    ∃ path ∈ files, d.source = basename path ∧
      ((strEndsWith (basename path) ".pdf" = true ∧ d.type = "pdf") ∨
        (strEndsWith (basename path) ".pdf" = false ∧
          strEndsWith (basename path) ".txt" = true ∧ d.type = "txt")) := by
  rw [List.mem_flatten] at hd
  obtain ⟨l, hl, hdl⟩ := hd
  rw [List.mem_map] at hl
  obtain ⟨path, hpath, rfl⟩ := hl
  refine ⟨path, hpath, ?_⟩
  by_cases hpdf : strEndsWith (basename path) ".pdf" = true
  · cases hr : fs.readPdf path with
    | none => simp [processFile, hpdf, hr] at hdl
    | some text =>
      by_cases ht : text = ""
      · subst ht
        simp [processFile, hpdf, hr] at hdl
      · simp [processFile, hpdf, hr, ht, List.mem_map] at hdl
        obtain ⟨c, hc, rfl⟩ := hdl
        exact ⟨rfl, Or.inl ⟨hpdf, rfl⟩⟩
  · have hpdf2 : strEndsWith (basename path) ".pdf" = false := by simpa using hpdf
    by_cases htxt : strEndsWith (basename path) ".txt" = true
    · cases hr : fs.readTxt path with
      | none => simp [processFile, hpdf2, htxt, hr] at hdl
      | some text =>
        simp [processFile, hpdf2, htxt, hr, List.mem_map] at hdl
        obtain ⟨c, hc, rfl⟩ := hdl
        exact ⟨rfl, Or.inr ⟨hpdf2, htxt, rfl⟩⟩
    · have htxt2 : strEndsWith (basename path) ".txt" = false := by simpa using htxt
      simp [processFile, hpdf2, htxt2] at hdl

/-- Witness: the C6 theorem on a filesystem with one text file
`/home/notes.txt` whose single chunk is tagged source "notes.txt", type
"txt". -/
theorem ingest_chunk_metadata_witness :
    (Doc.mk "hello world" "notes.txt" "txt"
        ∈ ([["home", "notes.txt"]].map (processFile fsOneTxt 1000 200)).flatten) ∧
      (∃ path ∈ [["home", "notes.txt"]],
        (Doc.mk "hello world" "notes.txt" "txt").source = basename path ∧
          ((strEndsWith (basename path) ".pdf" = true ∧
              (Doc.mk "hello world" "notes.txt" "txt").type = "pdf") ∨
            (strEndsWith (basename path) ".pdf" = false ∧
              strEndsWith (basename path) ".txt" = true ∧
              (Doc.mk "hello world" "notes.txt" "txt").type = "txt"))) :=
  ⟨by decide, ingest_chunk_metadata fsOneTxt 1000 200 [["home", "notes.txt"]]
    (Doc.mk "hello world" "notes.txt" "txt") (by decide)⟩

/-! Theorems: retrieval chain and chat success payload -/

/-- C4: for every chat question, the configured retrieval is the k = 3
nearest chunks and the chat model is configured with temperature 0; the
returned message is the model's output on the fixed prompt template filled
with the double-newline-joined texts of the retrieved chunks and the
question, and the returned sources are the deduplicated set of source
filenames of the retrieved chunks. -/
theorem rag_chain_behavior (retriever : String → List RetrievedDoc)
    (llm : String → String) (q : String) :
    searchKwargsK = 3 ∧ chatTemperature = 0 ∧
      (chatSuccessBody retriever llm q).message
        = llm (ragTemplate
            (String.intercalate "\n\n" ((retriever q).map RetrievedDoc.page_content)) q) ∧
      ((chatSuccessBody retriever llm q).sources).Nodup ∧
      (∀ s, s ∈ (chatSuccessBody retriever llm q).sources ↔
        s ∈ (retriever q).map (fun d => d.source.getD "unknown")) :=
  ⟨rfl, rfl, rfl, List.nodup_dedup _, fun _ => List.mem_dedup⟩

/-! Theorems: index provisioner -/

theorem find?_name_spec (indexes : List IndexInfo) (nm : String) (info : IndexInfo)
    (h : indexes.find? (fun i => i.name == nm) = some info) :
    info ∈ indexes ∧ info.name = nm := by
  induction indexes with
  | nil => simp [List.find?] at h
  | cons a as ih =>
    cases hpa : (a.name == nm) with
    | true =>
      simp [List.find?, hpa] at h
      subst h
      exact ⟨List.mem_cons_self a as, eq_of_beq hpa⟩
    | false =>
      simp [List.find?, hpa] at h
      obtain ⟨h1, h2⟩ := ih h
      exact ⟨List.mem_cons_of_mem a h1, h2⟩

/-- C5: on first use, the provisioner lists the existing indexes; if the
target name does not exist it creates the index with dimension 1536 and
cosine metric and pauses before use; if the target exists with a dimension
other than 1536 it deletes the index and recreates it; if the target exists
with dimension 1536 it only describes it and proceeds. -/
theorem index_provisioning (indexes : List IndexInfo) (nm : String) (createOk : Bool) :
    (nm ∉ indexes.map IndexInfo.name →
      provisionIndex indexes nm createOk
        = (PEffect.listIndexes :: PEffect.createIndex nm 1536 "cosine"
            :: (if createOk then [PEffect.sleepSecs 30] else []), createOk)) ∧
    (∀ info, indexes.find? (fun i => i.name == nm) = some info →
      (info.dimension ≠ 1536 →
        provisionIndex indexes nm createOk
          = ([PEffect.listIndexes, PEffect.describeIndex nm, PEffect.deleteIndex nm,
              PEffect.sleepSecs 5, PEffect.createIndex nm 1536 "cosine"]
              ++ (if createOk then [PEffect.sleepSecs 30] else []), createOk)) ∧
      (info.dimension = 1536 →
        provisionIndex indexes nm createOk
          = ([PEffect.listIndexes, PEffect.describeIndex nm], true))) := by
  constructor
  · intro hnm
    simp [provisionIndex, hnm, createAttempt]
  · intro info hfind
    have hmem : nm ∈ indexes.map IndexInfo.name := by
      obtain ⟨h1, h2⟩ := find?_name_spec indexes nm info hfind
      exact List.mem_map.mpr ⟨info, h1, h2⟩
    constructor
    · intro hdim
      simp [provisionIndex, hmem, hfind, hdim, createAttempt]
    · intro hdim
      simp [provisionIndex, hmem, hfind, hdim]

/-- Witness: the C5 theorem in its three cases — a missing index is created
(1536, cosine) with the 30-second pause; a 768-dimensional index is deleted,
recreated and paused on; a 1536-dimensional index is left in place. -/
theorem index_provisioning_witness :
    provisionIndex [] "banao-index" true
        = ([PEffect.listIndexes, PEffect.createIndex "banao-index" 1536 "cosine",
            PEffect.sleepSecs 30], true) ∧
      provisionIndex [IndexInfo.mk "banao-index" 768] "banao-index" true
        = ([PEffect.listIndexes, PEffect.describeIndex "banao-index",
            PEffect.deleteIndex "banao-index", PEffect.sleepSecs 5,
            PEffect.createIndex "banao-index" 1536 "cosine", PEffect.sleepSecs 30], true) ∧
      provisionIndex [IndexInfo.mk "banao-index" 1536] "banao-index" false
        = ([PEffect.listIndexes, PEffect.describeIndex "banao-index"], true) := by
  refine ⟨?_, ?_, ?_⟩
  · have h := (index_provisioning [] "banao-index" true).1 (by decide)
    simpa using h
  · have h := ((index_provisioning [IndexInfo.mk "banao-index" 768] "banao-index" true).2
      (IndexInfo.mk "banao-index" 768) (by decide)).1 (by decide)
    simpa using h
  · exact ((index_provisioning [IndexInfo.mk "banao-index" 1536] "banao-index" false).2
      (IndexInfo.mk "banao-index" 1536) (by decide)).2 (by decide)

/-! Theorems: upload endpoint -/

/-- C7: every upload request whose files all have disallowed extensions is
rejected with status 400, writes no file to the upload folder, and starts no
ingestion thread. -/
theorem upload_rejects_disallowed (secureName : String → String) (files : List String)
    (hall : ∀ f ∈ files, allowed_file f = false) :
    uploadFile secureName (some files) = UploadOutcome.mk 400 [] false := by
  have hfil : files.filter (fun f => !(f == "") && allowed_file f) = [] := by
    apply List.filter_eq_nil_iff.mpr
    intro f hf
    simp [hall f hf]
  by_cases h : files = [] ∨ files.headD "" = ""
  · rcases h with h | h
    · subst h
      simp [uploadFile]
    · cases files with
      | nil => simp [uploadFile]
      | cons a as =>
        have ha : a = "" := by simpa using h
        subst ha
        simp [uploadFile]
  · simp only [uploadFile]
    rw [if_neg h]
    simp [hfil]

/-- Witness: the C7 theorem on an upload of a single `.exe` file. -/
theorem upload_rejects_disallowed_witness :
    (∀ f ∈ ["malware.exe"], allowed_file f = false) ∧
      uploadFile id (some ["malware.exe"]) = UploadOutcome.mk 400 [] false :=
  ⟨by decide, upload_rejects_disallowed id ["malware.exe"] (by decide)⟩

/-! Theorems: path-ingestion endpoint -/

theorem normalizePaths_ne_nil_truthy (fp : StrOrList) (h : normalizePaths fp ≠ []) :
    reqTruthy (some fp) = true := by
  cases fp with
  | str s =>
    by_cases hs : s = ""
    · subst hs
      exact absurd (by decide) h
    · simp [reqTruthy, hs]
  | lst l =>
    cases l with
    | nil => exact absurd (by decide) h
    | cons a as => simp [reqTruthy]

/-- C8: every ingest-path request containing at least one non-existent path
returns the 404 response listing exactly the non-existent normalized paths
and no others, and no ingestion thread is started. -/
theorem ingest_path_missing_404 (osPathExists : String → Bool) (fp : StrOrList)
    (chunkSize chunkOverlap : Nat) (clearExisting : Bool) (p : String)
    (hp : p ∈ normalizePaths fp) (hnx : osPathExists p = false) :
    ingest_by_path osPathExists (some fp) chunkSize chunkOverlap clearExisting
        = IngestPathResp.notFound ((normalizePaths fp).filter (fun q => !(osPathExists q))) ∧
      (∀ q, q ∈ (normalizePaths fp).filter (fun q => !(osPathExists q)) ↔
        (q ∈ normalizePaths fp ∧ osPathExists q = false)) ∧
      (∀ ps c1 c2 b,
        ingest_by_path osPathExists (some fp) chunkSize chunkOverlap clearExisting
          ≠ IngestPathResp.started ps c1 c2 b) := by
  have hne : normalizePaths fp ≠ [] := by
    intro hnil
    rw [hnil] at hp
    simp at hp
  have htr : reqTruthy (some fp) = true := normalizePaths_ne_nil_truthy fp hne
  have hinval : (normalizePaths fp).filter (fun q => !(osPathExists q)) ≠ [] := by
    intro hnil
    have : p ∈ (normalizePaths fp).filter (fun q => !(osPathExists q)) :=
      List.mem_filter.mpr ⟨hp, by simp [hnx]⟩
    rw [hnil] at this
    simp at this
  have hmain : ingest_by_path osPathExists (some fp) chunkSize chunkOverlap clearExisting
      = IngestPathResp.notFound ((normalizePaths fp).filter (fun q => !(osPathExists q))) := by
    simp [ingest_by_path, htr, hne, hinval]
  refine ⟨hmain, ?_, ?_⟩
  · intro q
    constructor
    · intro hq
      have h2 := List.mem_filter.mp hq
      exact ⟨h2.1, by simpa using h2.2⟩
    · intro hq
      exact List.mem_filter.mpr ⟨hq.1, by simp [hq.2]⟩
  · intro ps c1 c2 b
    rw [hmain]
    simp

/-- Witness: the C8 theorem on a request with one existing path "a.txt" and
one missing path "missing.txt": the 404 body lists exactly "missing.txt". -/
theorem ingest_path_missing_404_witness :
    ingest_by_path (fun s => s == "a.txt") (some (StrOrList.str "a.txt, missing.txt"))
        1000 200 false
      = IngestPathResp.notFound
          ((normalizePaths (StrOrList.str "a.txt, missing.txt")).filter
            (fun q => !((fun s => s == "a.txt") q))) ∧
      (normalizePaths (StrOrList.str "a.txt, missing.txt")).filter
          (fun q => !((fun s => s == "a.txt") q)) = ["missing.txt"] :=
  ⟨(ingest_path_missing_404 (fun s => s == "a.txt") (StrOrList.str "a.txt, missing.txt")
      1000 200 false "missing.txt" (by decide) (by decide)).1, by decide⟩
